import Mathlib

/-!
Shallow embedding of the agent-chat streaming chat route and artifact
detector, together with proofs of the behavioural properties they are
specified to satisfy.

Text is modelled as `List Char`; the JavaScript regex classes `\s` and `\w`
are modelled by `isWs` and `isWordChar`.
-/

namespace AgentChat

/-- JavaScript `\s` character class (whitespace as used by `split(/(\s+)/)`,
`trim()` and the fenced-block regex). -/
def isWs (c : Char) : Bool :=
  c == ' ' || c == '\t' || c == '\n' || c == '\r' ||
  c == '\x0b' || c == '\x0c' || c == '\u00a0' || c == '\u1680' ||
  decide ('\u2000' ≤ c ∧ c ≤ '\u200a') || c == '\u2028' || c == '\u2029' ||
  c == '\u202f' || c == '\u205f' || c == '\u3000' || c == '\ufeff'

/-- JavaScript `\w` character class. -/
def isWordChar (c : Char) : Bool :=
  (decide ('a' ≤ c ∧ c ≤ 'z')) || (decide ('A' ≤ c ∧ c ≤ 'Z')) ||
  (decide ('0' ≤ c ∧ c ≤ '9')) || c == '_'

/-- ASCII lower-casing, modelling `String.prototype.toLowerCase` on the
ASCII inputs the detector deals with. -/
def lowerChar (c : Char) : Char :=
  if decide ('A' ≤ c ∧ c ≤ 'Z') then Char.ofNat (c.toNat + 32) else c

def lower (l : List Char) : List Char := l.map lowerChar

/-- JavaScript `String.prototype.trim`. -/
def trimJS (l : List Char) : List Char :=
  ((l.dropWhile isWs).reverse.dropWhile isWs).reverse

/-- The maximal suffix of `l` containing no whitespace: the final element of
`l.split(/(\s+)/)`, i.e. the part `enqueueContent` keeps in the buffer. -/
def wsFreeSuffix (l : List Char) : List Char :=
  (l.reverse.takeWhile (fun c => !isWs c)).reverse

/-- Everything up to and including the last whitespace character of `l`:
the joined initial elements of the whitespace split in `enqueueContent`. -/
def wsClosedPart (l : List Char) : List Char :=
  (l.reverse.dropWhile (fun c => !isWs c)).reverse

/-- One frame of the client wire protocol: `0:<json-string>` content frames
and the terminal `e:{"finishReason":...}` frame. -/
inductive Frame
  | content (s : List Char)
  | finish (reason : List Char)
deriving DecidableEq, Repr

/-- The streaming buffer state of `handleDirectChat`: the `textBuffer`
variable together with the frames enqueued so far on the controller. -/
structure BufState where
  buf : List Char
  out : List Frame
deriving DecidableEq, Repr

/-- `enqueueContent` from `handleDirectChat` (word-buffered variant): append
the delta to `textBuffer`, split at whitespace keeping the final incomplete
word buffered, and emit everything up to the last whitespace boundary.
`textBuffer.split(/(\s+)/).length > 1` iff the buffer contains a whitespace
character; the final element of the split is the maximal whitespace-free
suffix and the joined initial elements are the rest. -/
def enqueueContent (st : BufState) (content : List Char) : BufState :=
  let b := st.buf ++ content
  if b.any isWs then
    let send := wsClosedPart b
    { buf := wsFreeSuffix b,
      out := if 0 < send.length then st.out ++ [Frame.content send] else st.out }
  else
    { st with buf := b }

/-- `flushBuffer` from `handleDirectChat`: emit the whole remaining buffer as
one content frame provided its `trim()` is non-empty. -/
def flushBuffer (st : BufState) : BufState :=
  if 0 < (trimJS st.buf).length then
    { buf := [], out := st.out ++ [Frame.content st.buf] }
  else st

/-- Feeding a list of deltas through `enqueueContent` and then flushing,
starting from an empty buffer — the word-boundary pipeline of the spec. -/
def runBuffer (deltas : List (List Char)) : BufState :=
  flushBuffer (deltas.foldl enqueueContent ⟨[], []⟩)

/-- The payloads of the content frames of a frame list, in order. -/
def contentPayloads (fs : List Frame) : List (List Char) :=
  fs.filterMap (fun f => match f with | .content s => some s | _ => none)

/-- A payload ending at a whitespace boundary. -/
def endsWs (p : List Char) : Prop := ∃ c, p.getLast? = some c ∧ isWs c = true

/- ### Buffer lemmas -/

theorem wsClosedPart_append_wsFreeSuffix (l : List Char) :
    wsClosedPart l ++ wsFreeSuffix l = l := by
  unfold wsClosedPart wsFreeSuffix
  rw [← List.reverse_append, List.takeWhile_append_dropWhile, List.reverse_reverse]

theorem mem_wsFreeSuffix_not_ws {l : List Char} {c : Char}
    (h : c ∈ wsFreeSuffix l) : isWs c = false := by
  unfold wsFreeSuffix at h
  rw [List.mem_reverse] at h
  have := List.mem_takeWhile_imp h
  simpa using this

theorem head_dropWhile_false {p : Char → Bool} :
    ∀ (l : List Char) (x : Char), (l.dropWhile p).head? = some x → p x = false := by
  intro l
  induction l with
  | nil => intro x h; simp [List.dropWhile] at h
  | cons a t ih =>
    intro x h
    by_cases hp : p a
    · rw [List.dropWhile_cons_of_pos hp] at h
      exact ih x h
    · rw [List.dropWhile_cons_of_neg hp] at h
      simp at h
      subst h
      simpa using hp

theorem wsClosedPart_endsWs {l : List Char} (h : l.any isWs = true) :
    endsWs (wsClosedPart l) := by
  unfold wsClosedPart
  have hne : l.reverse.dropWhile (fun c => !isWs c) ≠ [] := by
    intro hnil
    rw [List.dropWhile_eq_nil_iff] at hnil
    rw [List.any_eq_true] at h
    obtain ⟨c, hc, hcw⟩ := h
    have := hnil c (List.mem_reverse.mpr hc)
    simp [hcw] at this
  obtain ⟨x, t, hxt⟩ := List.exists_cons_of_ne_nil hne
  refine ⟨x, ?_, ?_⟩
  · rw [hxt]
    simp
  · have := head_dropWhile_false (p := fun c => !isWs c) l.reverse x
    rw [hxt] at this
    have hx := this rfl
    simpa using hx

theorem trimJS_pos_iff (l : List Char) :
    (0 < (trimJS l).length) ↔ (l.any fun c => !isWs c) = true := by
  unfold trimJS
  constructor
  · intro h
    by_contra hall
    rw [List.any_eq_true] at hall
    push_neg at hall
    have hws : ∀ c ∈ l, isWs c = true := by
      intro c hc
      have := hall c hc
      simpa using this
    have h1 : l.dropWhile isWs = [] := by
      rw [List.dropWhile_eq_nil_iff]
      intro a ha; exact hws a ha
    simp [h1] at h
  · intro h
    rw [List.any_eq_true] at h
    obtain ⟨c, hc, hcw⟩ := h
    have hcw' : isWs c = false := by simpa using hcw
    have h1 : l.dropWhile isWs ≠ [] := by
      intro hnil
      have hws := List.dropWhile_eq_nil_iff.mp hnil
      have := hws c hc
      rw [this] at hcw'
      exact absurd hcw' (by simp)
    obtain ⟨x, t, hxt⟩ := List.exists_cons_of_ne_nil h1
    have hxw : isWs x = false := head_dropWhile_false l x (by rw [hxt]; rfl)
    have hd : x ∈ l.dropWhile isWs := by rw [hxt]; exact List.mem_cons_self x t
    have h2 : (l.dropWhile isWs).reverse.dropWhile isWs ≠ [] := by
      intro hnil
      have := (List.dropWhile_eq_nil_iff.mp hnil) x (List.mem_reverse.mpr hd)
      rw [this] at hxw
      exact absurd hxw (by simp)
    have hpos := List.length_pos.mpr h2
    simpa using hpos

theorem wsClosedPart_nil_eq {l : List Char} (h : wsClosedPart l = []) :
    wsFreeSuffix l = l := by
  have := wsClosedPart_append_wsFreeSuffix l
  rw [h] at this
  simpa using this

theorem contentPayloads_append (xs ys : List Frame) :
    contentPayloads (xs ++ ys) = contentPayloads xs ++ contentPayloads ys := by
  unfold contentPayloads
  rw [List.filterMap_append]

/-- One `enqueueContent` step: the concatenation of emitted payloads plus the
buffer is preserved, the buffer stays whitespace-free, and every newly
emitted payload ends at a whitespace boundary. -/
theorem enqueueContent_step (st : BufState) (d : List Char) :
    ((contentPayloads (enqueueContent st d).out).flatten ++ (enqueueContent st d).buf
      = (contentPayloads st.out).flatten ++ st.buf ++ d)
    ∧ (∀ c ∈ (enqueueContent st d).buf, isWs c = false)
    ∧ (∃ extra, (enqueueContent st d).out = st.out ++ extra
        ∧ ∀ p ∈ contentPayloads extra, endsWs p) := by
  unfold enqueueContent
  by_cases h : (st.buf ++ d).any isWs
  · simp only [h, if_true]
    by_cases hs : 0 < (wsClosedPart (st.buf ++ d)).length
    · refine ⟨?_, ?_, ?_⟩
      · simp only [hs, if_true, contentPayloads_append]
        have : contentPayloads [Frame.content (wsClosedPart (st.buf ++ d))]
            = [wsClosedPart (st.buf ++ d)] := rfl
        rw [this]
        simp only [List.flatten_append, List.flatten_cons, List.flatten_nil,
          List.append_nil, List.append_assoc]
        rw [wsClosedPart_append_wsFreeSuffix (st.buf ++ d)]
      · intro c hc
        exact mem_wsFreeSuffix_not_ws hc
      · refine ⟨if 0 < (wsClosedPart (st.buf ++ d)).length
            then [Frame.content (wsClosedPart (st.buf ++ d))] else [], by simp [hs], ?_⟩
        simp only [hs, if_true]
        intro p hp
        have : p = wsClosedPart (st.buf ++ d) := by
          simpa [contentPayloads] using hp
        rw [this]
        exact wsClosedPart_endsWs h
    · have hz : wsClosedPart (st.buf ++ d) = [] := by
        simpa using hs
      refine ⟨?_, ?_, ?_⟩
      · simp only [hs, if_false]
        rw [wsClosedPart_nil_eq hz, List.append_assoc]
      · intro c hc
        exact mem_wsFreeSuffix_not_ws hc
      · exact ⟨[], by simp [hs], by simp [contentPayloads]⟩
  · simp only [h, if_false]
    refine ⟨by simp [List.append_assoc], ?_, ⟨[], by simp, by simp [contentPayloads]⟩⟩
    intro c hc
    have : ¬ ((st.buf ++ d).any isWs = true) := by simpa using h
    rw [List.any_eq_true] at this
    push_neg at this
    have := this c hc
    simpa using this

/-- Folding a list of deltas through `enqueueContent`. -/
theorem enqueueContent_fold (ds : List (List Char)) (st : BufState)
    (hbuf : ∀ c ∈ st.buf, isWs c = false) :
    ((contentPayloads (ds.foldl enqueueContent st).out).flatten
        ++ (ds.foldl enqueueContent st).buf
      = (contentPayloads st.out).flatten ++ st.buf ++ ds.flatten)
    ∧ (∀ c ∈ (ds.foldl enqueueContent st).buf, isWs c = false)
    ∧ (∃ extra, (ds.foldl enqueueContent st).out = st.out ++ extra
        ∧ ∀ p ∈ contentPayloads extra, endsWs p) := by
  induction ds generalizing st with
  | nil =>
    exact ⟨by simp, hbuf, ⟨[], by simp, by simp [contentPayloads]⟩⟩
  | cons d ds ih =>
    obtain ⟨h1, h2, extra1, he1, hw1⟩ := enqueueContent_step st d
    obtain ⟨g1, g2, extra2, ge1, gw1⟩ := ih (enqueueContent st d) h2
    refine ⟨?_, g2, ?_⟩
    · rw [List.foldl_cons] at *
      rw [g1, h1]
      simp [List.append_assoc]
    · refine ⟨extra1 ++ extra2, ?_, ?_⟩
      · rw [List.foldl_cons, ge1, he1, List.append_assoc]
      · intro p hp
        rw [contentPayloads_append] at hp
        rcases List.mem_append.mp hp with h' | h'
        · exact hw1 p h'
        · exact gw1 p h'

/-- `flushBuffer` on a whitespace-free buffer: the buffered text is emitted
in full (or the buffer was empty and nothing is emitted). -/
theorem flushBuffer_spec (st : BufState) (hbuf : ∀ c ∈ st.buf, isWs c = false) :
    ((contentPayloads (flushBuffer st).out).flatten
        = (contentPayloads st.out).flatten ++ st.buf)
    ∧ (∃ extra, (flushBuffer st).out = st.out ++ extra
        ∧ contentPayloads extra = if st.buf = [] then [] else [st.buf]) := by
  unfold flushBuffer
  by_cases h : 0 < (trimJS st.buf).length
  · have hne : st.buf ≠ [] := by
      intro hnil
      rw [hnil] at h
      simp [trimJS] at h
    simp only [h, if_true]
    refine ⟨?_, ⟨[Frame.content st.buf], by simp, by simp [contentPayloads, hne]⟩⟩
    rw [contentPayloads_append]
    have : contentPayloads [Frame.content st.buf] = [st.buf] := rfl
    rw [this]
    simp
  · have hnil : st.buf = [] := by
      rcases hb : st.buf with _ | ⟨c, t⟩
      · rfl
      · exfalso
        apply h
        rw [trimJS_pos_iff]
        rw [List.any_eq_true]
        refine ⟨c, by rw [hb]; exact List.mem_cons_self c t, ?_⟩
        have := hbuf c (by rw [hb]; exact List.mem_cons_self c t)
        simp [this]

    simp only [h, if_false]
    exact ⟨by simp [hnil], ⟨[], by simp, by simp [contentPayloads, hnil]⟩⟩

/-- C2: for every finite sequence of content deltas fed through the
word-boundary buffer (`enqueueContent` on each delta, then a final
`flushBuffer`), the concatenation of all emitted `ContentFrame` payloads
equals the concatenation of the input deltas, and every payload except
possibly the final flushed one ends at a whitespace boundary. -/
theorem contentBuffer_word_boundary (deltas : List (List Char)) :
    ((contentPayloads (runBuffer deltas).out).flatten = deltas.flatten)
    ∧ ∀ p ∈ (contentPayloads (runBuffer deltas).out).dropLast, endsWs p := by
  unfold runBuffer
  obtain ⟨h1, h2, extra, he, hw⟩ :=
    enqueueContent_fold deltas ⟨[], []⟩ (by intro c hc; simp at hc)
  obtain ⟨f1, fextra, fe, fw⟩ := flushBuffer_spec (deltas.foldl enqueueContent ⟨[], []⟩) h2
  constructor
  · rw [f1, h1]
    simp [contentPayloads]
  · intro p hp
    rw [fe, he] at hp
    have hout0 : contentPayloads (([] : List Frame) ++ extra ++ fextra)
        = contentPayloads extra ++ contentPayloads fextra := by
      rw [List.nil_append, contentPayloads_append]
    rw [List.append_assoc, List.nil_append] at hp
    rw [contentPayloads_append] at hp
    by_cases hb : (deltas.foldl enqueueContent ⟨[], []⟩).buf = []
    · rw [fw] at hp
      simp only [hb, if_true] at hp
      rw [List.append_nil] at hp
      exact hw p (List.dropLast_subset _ hp)
    · rw [fw] at hp
      simp only [hb, if_false] at hp
      rw [List.dropLast_concat] at hp
      exact hw p hp

/-- Witness for C2 at the spec's end-to-end example deltas. -/
theorem contentBuffer_word_boundary_witness :
    ((contentPayloads (runBuffer
        [("Here ").toList, ("is ").toList, ("your answer.").toList]).out).flatten
      = (("Here ").toList ++ (("is ").toList ++ (("your answer.").toList ++ []))))
    ∧ endsWs (("is ").toList) := by
  have h := contentBuffer_word_boundary
    [("Here ").toList, ("is ").toList, ("your answer.").toList]
  refine ⟨by simpa using h.1, ?_⟩
  have h2 := h.2
  have hmem : ("is ").toList ∈ (contentPayloads (runBuffer
      [("Here ").toList, ("is ").toList, ("your answer.").toList]).out).dropLast := by
    decide
  exact h2 _ hmem

/- ### JSON values and `JSON.parse` -/

/-- JSON values as produced by JavaScript `JSON.parse`. Numbers are kept
exactly as a decimal mantissa/exponent pair. -/
inductive Json
  | null
  | bool (b : Bool)
  | num (mantissa : Int) (exponent10 : Int)
  | str (s : List Char)
  | arr (elems : List Json)
  | obj (fields : List (List Char × Json))
deriving Repr, Inhabited

/-- JavaScript truthiness of a parsed JSON value (`undefined` is handled by
`Option` at use sites). -/
def Json.truthy : Json → Bool
  | .null => false
  | .bool b => b
  | .num m _ => m != 0
  | .str s => !s.isEmpty
  | .arr _ => true
  | .obj _ => true

/-- JavaScript `typeof x === 'object'` (true for objects, arrays and null). -/
def Json.typeofObject : Json → Bool
  | .null => true
  | .arr _ => true
  | .obj _ => true
  | _ => false

def Json.isArr : Json → Bool
  | .arr _ => true
  | _ => false

def Json.isNum : Json → Bool
  | .num _ _ => true
  | _ => false

def Json.isObj : Json → Bool
  | .obj _ => true
  | _ => false

/-- Object entries with JavaScript duplicate-key semantics: last value wins,
first occurrence fixes the position. -/
def jsonObjEntries (fields : List (List Char × Json)) : List (List Char × Json) :=
  fields.foldl (fun acc kv =>
    if acc.any (fun e => e.1 == kv.1)
    then acc.map (fun e => if e.1 == kv.1 then (e.1, kv.2) else e)
    else acc ++ [kv]) []

/-- `Object.keys`/property enumeration: named fields of an object, decimal
index keys of an array, nothing otherwise. -/
def Json.jsEntries : Json → List (List Char × Json)
  | .obj fields => jsonObjEntries fields
  | .arr xs => xs.enum.map (fun p => ((toString p.1).toList, p.2))
  | _ => []

/-- JavaScript property access `j[k]`; `none` models `undefined`. -/
def Json.jsGet (j : Json) (k : List Char) : Option Json :=
  (j.jsEntries.find? (fun e => e.1 == k)).map (fun e => e.2)

/-- Optional-chained access on a possibly-`undefined` value. -/
def jsGetOpt (o : Option Json) (k : List Char) : Option Json :=
  o.bind (fun j => j.jsGet k)

/-- Truthiness of a possibly-`undefined` value. -/
def optTruthy (o : Option Json) : Bool :=
  match o with
  | some j => j.truthy
  | none => false

def Json.atIndex (j : Json) (i : Nat) : Option Json :=
  match j with
  | .arr xs => xs.get? i
  | _ => none

def isDigit (c : Char) : Bool := decide ('0' ≤ c ∧ c ≤ '9')

def hexVal (c : Char) : Option Nat :=
  if decide ('0' ≤ c ∧ c ≤ '9') then some (c.toNat - 48)
  else if decide ('a' ≤ c ∧ c ≤ 'f') then some (c.toNat - 87)
  else if decide ('A' ≤ c ∧ c ≤ 'F') then some (c.toNat - 55)
  else none

def digitsToNat (ds : List Char) : Nat :=
  ds.foldl (fun a c => a * 10 + (c.toNat - 48)) 0

def skipJsonWs (l : List Char) : List Char :=
  l.dropWhile (fun c => c == ' ' || c == '\t' || c == '\n' || c == '\r')

/-- Body of a JSON string literal after the opening quote. -/
def parseStringBody : Nat → List Char → Option (List Char × List Char)
  | 0, _ => none
  | _ + 1, [] => none
  | fuel + 1, c :: cs =>
    if c = '"' then some ([], cs)
    else if c = '\\' then
      match cs with
      | [] => none
      | e :: cs2 =>
        if e = '"' ∨ e = '\\' ∨ e = '/' then
          (parseStringBody fuel cs2).map (fun p => (e :: p.1, p.2))
        else if e = 'b' then
          (parseStringBody fuel cs2).map (fun p => ('\x08' :: p.1, p.2))
        else if e = 'f' then
          (parseStringBody fuel cs2).map (fun p => ('\x0c' :: p.1, p.2))
        else if e = 'n' then
          (parseStringBody fuel cs2).map (fun p => ('\n' :: p.1, p.2))
        else if e = 'r' then
          (parseStringBody fuel cs2).map (fun p => ('\r' :: p.1, p.2))
        else if e = 't' then
          (parseStringBody fuel cs2).map (fun p => ('\t' :: p.1, p.2))
        else if e = 'u' then
          match cs2 with
          | h1 :: h2 :: h3 :: h4 :: cs3 =>
            match hexVal h1, hexVal h2, hexVal h3, hexVal h4 with
            | some a, some b, some c2, some d =>
              (parseStringBody fuel cs3).map (fun p =>
                (Char.ofNat (((a * 16 + b) * 16 + c2) * 16 + d) :: p.1, p.2))
            | _, _, _, _ => none
          | _ => none
        else none
    else if c.toNat < 32 then none
    else (parseStringBody fuel cs).map (fun p => (c :: p.1, p.2))

/-- Exponent part of a JSON number after `e`/`E`. -/
def parseExp (l : List Char) : Option (Int × List Char) :=
  let sl : Int × List Char :=
    match l with
    | '+' :: r => (1, r)
    | '-' :: r => (-1, r)
    | _ => (1, l)
  let ds := sl.2.takeWhile isDigit
  if ds.isEmpty then none
  else some (sl.1 * (digitsToNat ds : Int), sl.2.dropWhile isDigit)

/-- JSON number grammar: `-? (0 | [1-9][0-9]*) (\.[0-9]+)? ([eE][+-]?[0-9]+)?`. -/
def parseNumber (l : List Char) : Option (Json × List Char) :=
  let nl : Bool × List Char :=
    match l with
    | '-' :: r => (true, r)
    | _ => (false, l)
  let intPart := nl.2.takeWhile isDigit
  let r2 := nl.2.dropWhile isDigit
  if intPart.isEmpty then none
  else if 1 < intPart.length ∧ intPart.head? = some '0' then none
  else
    let step2 : Option (List Char × List Char) :=
      match r2 with
      | '.' :: r =>
        let fp := r.takeWhile isDigit
        if fp.isEmpty then none else some (fp, r.dropWhile isDigit)
      | _ => some ([], r2)
    match step2 with
    | none => none
    | some (fracPart, r3) =>
      let step3 : Option (Int × List Char) :=
        match r3 with
        | 'e' :: r => parseExp r
        | 'E' :: r => parseExp r
        | _ => some (0, r3)
      match step3 with
      | none => none
      | some (expVal, r4) =>
        let mag : Nat := digitsToNat (intPart ++ fracPart)
        let m : Int := if nl.1 then -(mag : Int) else (mag : Int)
        some (Json.num m (expVal - fracPart.length), r4)

mutual

/-- One JSON value, fuel-bounded recursive descent. -/
def parseValue : Nat → List Char → Option (Json × List Char)
  | 0, _ => none
  | fuel + 1, l =>
    match skipJsonWs l with
    | 'n' :: 'u' :: 'l' :: 'l' :: r => some (Json.null, r)
    | 't' :: 'r' :: 'u' :: 'e' :: r => some (Json.bool true, r)
    | 'f' :: 'a' :: 'l' :: 's' :: 'e' :: r => some (Json.bool false, r)
    | '"' :: r => (parseStringBody (r.length + 1) r).map (fun p => (Json.str p.1, p.2))
    | '[' :: r =>
      (match skipJsonWs r with
       | ']' :: r2 => some (Json.arr [], r2)
       | _ => (parseElems fuel r).map (fun p => (Json.arr p.1, p.2)))
    | '\x7b' :: r =>
      (match skipJsonWs r with
       | '\x7d' :: r2 => some (Json.obj [], r2)
       | _ => (parseFields fuel r).map (fun p => (Json.obj p.1, p.2)))
    | l2 => parseNumber l2

/-- Comma-separated array elements up to the closing bracket. -/
def parseElems : Nat → List Char → Option (List Json × List Char)
  | 0, _ => none
  | fuel + 1, l => do
    let (v, r) ← parseValue fuel l
    match skipJsonWs r with
    | ',' :: r2 => do
      let (vs, r3) ← parseElems fuel r2
      pure (v :: vs, r3)
    | ']' :: r2 => pure ([v], r2)
    | _ => none

/-- Comma-separated object members up to the closing brace. -/
def parseFields : Nat → List Char → Option (List (List Char × Json) × List Char)
  | 0, _ => none
  | fuel + 1, l =>
    match skipJsonWs l with
    | '"' :: r => do
      let (k, r1) ← parseStringBody (r.length + 1) r
      match skipJsonWs r1 with
      | ':' :: r2 => do
        let (v, r3) ← parseValue fuel r2
        match skipJsonWs r3 with
        | ',' :: r4 => do
          let (fs, r5) ← parseFields fuel r4
          pure ((k, v) :: fs, r5)
        | '\x7d' :: r4 => pure ([(k, v)], r4)
        | _ => none
      | _ => none
    | _ => none

end

/-- `JSON.parse` on a whole string: one value, then only whitespace. -/
def jsonParse (l : List Char) : Option Json :=
  match parseValue (l.length + 1) l with
  | some (j, r) => if skipJsonWs r = [] then some j else none
  | none => none

/- ### Artifact detector (`src/lib/artifact-detector.ts`) -/

inductive ArtifactType
  | code | text | data | diagram | html | chart | table
deriving DecidableEq, Repr

def artifactTypeStr : ArtifactType → List Char
  | .code => ("code").toList
  | .text => ("text").toList
  | .data => ("data").toList
  | .diagram => ("diagram").toList
  | .html => ("html").toList
  | .chart => ("chart").toList
  | .table => ("table").toList

structure ArtifactTab where
  id : List Char
  label : List Char
  content : List Char
  kind : List Char
deriving DecidableEq, Repr

structure ArtifactContent where
  id : List Char
  type : ArtifactType
  language : List Char
  title : List Char
  content : List Char
  filename : List Char
  messageId : Option (List Char)
  blockIndex : Nat
  tabs : List ArtifactTab
deriving DecidableEq, Repr

def natStr (n : Nat) : List Char := (toString n).toList

def codeLanguages : List (List Char) :=
  [("javascript").toList, ("python").toList, ("java").toList, ("cpp").toList,
   ("c").toList, ("go").toList, ("rust").toList, ("php").toList, ("ruby").toList,
   ("swift").toList, ("kotlin").toList, ("typescript").toList, ("jsx").toList,
   ("tsx").toList, ("bash").toList, ("shell").toList, ("sql").toList, ("r").toList,
   ("matlab").toList, ("scala").toList, ("perl").toList, ("csharp").toList,
   ("fsharp").toList, ("unknown").toList]

def diagramLanguages : List (List Char) :=
  [("mermaid").toList, ("dot").toList, ("plantuml").toList]

def dataLanguages : List (List Char) :=
  [("csv").toList, ("xml").toList, ("yaml").toList, ("toml").toList]

def webLanguages : List (List Char) :=
  [("html").toList, ("svg").toList]

def chartLanguages : List (List Char) :=
  [("chart").toList, ("pie").toList, ("bar").toList, ("line").toList,
   ("area").toList, ("scatter").toList, ("radar").toList, ("composed").toList,
   ("treemap").toList, ("funnel").toList, ("heatmap").toList, ("donut").toList,
   ("visualization").toList, ("graph").toList, ("plot").toList, ("dashboard").toList]

def tableLanguages : List (List Char) :=
  [("table").toList, ("tabular").toList]

def codeIndicators : List (List Char) :=
  [("import ").toList, ("from ").toList, ("def ").toList, ("function ").toList,
   ("class ").toList, ("const ").toList, ("let ").toList, ("var ").toList,
   ("if (").toList, ("for (").toList, ("while (").toList, ("try:").toList,
   ("except:").toList, ("catch (").toList, ("throw ").toList,
   ("#include").toList, ("public class").toList, ("private ").toList,
   ("protected ").toList, ("static ").toList,
   ("#!/").toList, ("package ").toList, ("use ").toList, ("require(").toList,
   ("module.exports").toList,
   ("async ").toList, ("await ").toList, ("return ").toList, ("yield ").toList,
   ("lambda ").toList, ("print(").toList,
   ("console.log").toList, ("System.out").toList, ("echo ").toList,
   ("printf(").toList, ("scanf(").toList,
   ("SELECT ").toList, ("INSERT ").toList, ("UPDATE ").toList,
   ("DELETE ").toList, ("CREATE TABLE").toList,
   ("ALTER TABLE").toList, ("DROP TABLE").toList, ("INDEX").toList,
   ("WHERE").toList, ("JOIN").toList]

def chartKeywords : List (List Char) :=
  [("charttype").toList, ("barchart").toList, ("linechart").toList,
   ("piechart").toList, ("areachart").toList,
   ("chart.js").toList, ("recharts").toList, ("chartjs").toList]

def tableKeywords : List (List Char) :=
  [("\"type\": \"table\"").toList, ("\x27type\x27: \x27table\x27").toList,
   ("\"columns\":").toList, ("\x27columns\x27:").toList,
   ("\"rows\":").toList, ("\x27rows\x27:").toList,
   ("<table").toList, ("<thead>").toList, ("<tbody>").toList]

/-- `p` occurs as a contiguous substring of `l` (JS `String.prototype.includes`). -/
def hasSub (l p : List Char) : Bool :=
  match l with
  | [] => p.isEmpty
  | _ :: t => List.isPrefixOf p l || hasSub t p

/-- Strict-equality test `x === 'lit'` on a possibly-`undefined` value. -/
def eqStrJs (o : Option Json) (lit : List Char) : Bool :=
  match o with
  | some (.str s) => s == lit
  | _ => false

/-- The chart-signature test of `detectContentType` (first `if` of the
`try` block). -/
def chartSig (parsed : Json) : Bool :=
  optTruthy (parsed.jsGet ("chartType").toList) ||
  eqStrJs (parsed.jsGet ("type").toList) (("chart").toList) ||
  optTruthy (jsGetOpt (parsed.jsGet ("data").toList) (("datasets").toList)) ||
  optTruthy (parsed.jsGet ("datasets").toList) ||
  optTruthy (parsed.jsGet ("labels").toList) ||
  optTruthy (parsed.jsGet ("x").toList) ||
  optTruthy (parsed.jsGet ("y").toList) ||
  optTruthy (parsed.jsGet ("series").toList) ||
  optTruthy (jsGetOpt (parsed.jsGet ("config").toList) (("type").toList)) ||
  optTruthy (jsGetOpt (parsed.jsGet ("options").toList) (("plugins").toList)) ||
  optTruthy (jsGetOpt (parsed.jsGet ("options").toList) (("scales").toList))

def Json.arrElems : Json → List Json
  | .arr xs => xs
  | _ => []

def Json.isNull : Json → Bool
  | .null => true
  | _ => false

/-- The "enhanced chart detection" of `detectContentType`: a non-empty
`data` array whose first element has numeric non-label fields. -/
def enhancedChartSig (parsed : Json) : Bool :=
  match parsed.jsGet ("data").toList with
  | some d =>
    optTruthy (some d) && d.isArr && decide (0 < d.arrElems.length) &&
    (match d.atIndex 0 with
     | some firstItem =>
       firstItem.typeofObject && !firstItem.isNull &&
       (let numericKeys := firstItem.jsEntries.filter (fun e =>
          e.1 != ("name").toList && e.1 != ("label").toList &&
          e.1 != ("category").toList && e.2.isNum)
        decide (1 ≤ numericKeys.length) &&
        (optTruthy (parsed.jsGet ("title").toList) ||
         optTruthy (parsed.jsGet ("chartType").toList) ||
         decide (1 < numericKeys.length)))
     | none => false)
  | none => false

/-- The table-signature test of `detectContentType`. -/
def tableSig (parsed : Json) : Bool :=
  eqStrJs (parsed.jsGet ("type").toList) (("table").toList) ||
  optTruthy (parsed.jsGet ("columns").toList) ||
  (match parsed.jsGet ("data").toList with
   | some d =>
     optTruthy (some d) && d.isArr && decide (0 < d.arrElems.length) &&
     (match d.atIndex 0 with
      | some f0 => f0.typeofObject
      | none => false) &&
     !optTruthy (parsed.jsGet ("chartType").toList)
   | none => false)

/-- The "array of uniformly-keyed objects" table test of
`detectContentType`. -/
def arrayTableSig (parsed : Json) : Bool :=
  parsed.isArr && decide (0 < parsed.arrElems.length) &&
  (match parsed.atIndex 0 with
   | some f0 =>
     f0.typeofObject && !f0.isNull &&
     !(parsed.arrElems.any (fun item =>
        optTruthy (item.jsGet ("chartType").toList) ||
        optTruthy (item.jsGet ("datasets").toList))) &&
     (let n := f0.jsEntries.length
      parsed.arrElems.all (fun item =>
        item.typeofObject && !item.isNull && item.jsEntries.length == n))
   | none => false)

/-- JSON-shape tier of `detectContentType` (the `try` block). -/
def jsonSigType (parsed : Json) : Option ArtifactType :=
  if chartSig parsed then some .chart
  else if enhancedChartSig parsed then some .chart
  else if tableSig parsed then some .table
  else if arrayTableSig parsed then some .table
  else none

/-- String-keyword tier of `detectContentType`. -/
def stringBasedType (code : List Char) : Option ArtifactType :=
  let lowerCode := lower code
  if chartKeywords.any (fun k => hasSub lowerCode k) then some .chart
  else if tableKeywords.any (fun k => hasSub lowerCode k) then some .table
  else none

/-- `detectContentType` from the artifact detector: code-indicator bail-out,
then JSON-shape sniffing, then string keywords. -/
def detectContentType (code : List Char) : Option ArtifactType :=
  if codeIndicators.any (fun ind => hasSub code ind) then none
  else
    let viaJson : Option ArtifactType :=
      match jsonParse code with
      | some parsed => jsonSigType parsed
      | none => none
    match viaJson with
    | some t => some t
    | none => stringBasedType code

/-- `getEnhancedArtifactType`: language-tag tiers first, then the JSON
special case, then content-based detection with a `code` fallback. -/
def getEnhancedArtifactType (language : List Char) (code : List Char) : ArtifactType :=
  let langLower := lower language
  if tableLanguages.contains langLower then .table
  else if chartLanguages.contains langLower then .chart
  else if diagramLanguages.contains langLower then .diagram
  else if webLanguages.contains langLower then .html
  else if dataLanguages.contains langLower then .data
  else if codeLanguages.contains langLower then .code
  else if langLower == ("json").toList then
    match detectContentType code with
    | some .chart => .chart
    | some .table => .table
    | _ => .data
  else
    match detectContentType code with
    | some t => t
    | none => .code

/-- Rendering of a JSON value inside a JavaScript template literal
(`${...}`); number rendering is exact for integral values and schematic
(mantissa`e`exponent) otherwise. -/
def jsToString : Json → List Char
  | .str s => s
  | .bool b => if b then ("true").toList else ("false").toList
  | .null => ("null").toList
  | .num m e =>
    if 0 ≤ e then (toString (m * (10 : Int) ^ e.toNat)).toList
    else if m % ((10 : Int) ^ (-e).toNat) == 0 then
      (toString (m / ((10 : Int) ^ (-e).toNat))).toList
    else (toString m).toList ++ ('e' :: (toString e).toList)
  | .arr _ => ("[array]").toList
  | .obj _ => ("[object Object]").toList

/-- Case-insensitive substring test, modelling `/pat/i.test(s)` for a
literal lowercase pattern. -/
def testCI (pat : List Char) (s : List Char) : Bool :=
  hasSub (lower s) pat

/-- `extractChartType`: chart sub-type recovered from the parsed JSON's own
type fields, falling back to case-insensitive text patterns. -/
def extractChartType (code : List Char) (language : List Char) : Option (List Char) :=
  let viaJson : Option (List Char) :=
    match jsonParse code with
    | some parsed =>
      if optTruthy (parsed.jsGet ("chartType").toList) then
        (parsed.jsGet ("chartType").toList).map jsToString
      else if optTruthy (parsed.jsGet ("type").toList) then
        (parsed.jsGet ("type").toList).map jsToString
      else if optTruthy (jsGetOpt (parsed.jsGet ("config").toList) (("type").toList)) then
        (jsGetOpt (parsed.jsGet ("config").toList) (("type").toList)).map jsToString
      else none
    | none => none
  match viaJson with
  | some t => some t
  | none =>
    if testCI (("bar").toList) code then some (("Bar").toList)
    else if testCI (("line").toList) code then some (("Line").toList)
    else if testCI (("pie").toList) code then some (("Pie").toList)
    else if testCI (("scatter").toList) code then some (("Scatter").toList)
    else if testCI (("area").toList) code then some (("Area").toList)
    else if testCI (("radar").toList) code then some (("Radar").toList)
    else none

def chartTypeMap : List (List Char × List Char) :=
  [(("bar").toList, ("Bar Chart").toList),
   (("line").toList, ("Line Chart").toList),
   (("pie").toList, ("Pie Chart").toList),
   (("area").toList, ("Area Chart").toList),
   (("scatter").toList, ("Scatter Plot").toList),
   (("radar").toList, ("Radar Chart").toList),
   (("composed").toList, ("Composed Chart").toList),
   (("visualization").toList, ("Data Visualization").toList),
   (("graph").toList, ("Data Graph").toList),
   (("plot").toList, ("Data Plot").toList),
   (("dashboard").toList, ("Dashboard").toList)]

/-- `getEnhancedTitle` from the artifact detector. -/
def getEnhancedTitle (type : ArtifactType) (language code : List Char)
    (blockIndex : Nat) : List Char :=
  if type = .diagram ∧ language = ("mermaid").toList then
    ("Mermaid Diagram ").toList ++ natStr blockIndex
  else if type = .chart then
    match extractChartType code language with
    | some ct => ct ++ (" Chart").toList
    | none => ("Data Chart ").toList ++ natStr blockIndex
  else if type = .table then
    ("Data Table ").toList ++ natStr blockIndex
  else
    match (chartTypeMap.find? (fun e => e.1 == language)).map (fun e => e.2) with
    | some t => t
    | none => language ++ (" Block ").toList ++ natStr blockIndex

def extensionsMap : List (List Char × List Char) :=
  [(("javascript").toList, ("js").toList), (("typescript").toList, ("ts").toList),
   (("python").toList, ("py").toList), (("java").toList, ("java").toList),
   (("cpp").toList, ("cpp").toList), (("c").toList, ("c").toList),
   (("go").toList, ("go").toList), (("rust").toList, ("rs").toList),
   (("php").toList, ("php").toList), (("ruby").toList, ("rb").toList),
   (("swift").toList, ("swift").toList), (("kotlin").toList, ("kt").toList),
   (("html").toList, ("html").toList), (("css").toList, ("css").toList),
   (("json").toList, ("json").toList), (("xml").toList, ("xml").toList),
   (("yaml").toList, ("yml").toList), (("markdown").toList, ("md").toList),
   (("sql").toList, ("sql").toList), (("bash").toList, ("sh").toList),
   (("shell").toList, ("sh").toList), (("r").toList, ("r").toList),
   (("matlab").toList, ("m").toList), (("scala").toList, ("scala").toList),
   (("perl").toList, ("pl").toList), (("mermaid").toList, ("mmd").toList),
   (("chart").toList, ("chart.json").toList), (("table").toList, ("table.json").toList),
   (("tabular").toList, ("table.json").toList),
   (("visualization").toList, ("chart.json").toList),
   (("graph").toList, ("chart.json").toList), (("plot").toList, ("chart.json").toList),
   (("dashboard").toList, ("dashboard.json").toList)]

/-- `getFilename` from the artifact detector. -/
def getFilename (language : List Char) (counter : Nat) (type : ArtifactType) : List Char :=
  let ext := ((extensionsMap.find? (fun e => e.1 == lower language)).map
    (fun e => e.2)).getD (("txt").toList)
  artifactTypeStr type ++ ('_' :: natStr counter) ++ ('.' :: ext)

/- ### Fenced-block extraction: CODE_BLOCK_REGEX exec loop -/

/-- First split of `l` around the closing delimiter `"\n```"`: the lazy
`([\s\S]*?)\n``` ` tail of the fence regex. -/
def findDelim : List Char → Option (List Char × List Char)
  | [] => none
  | c :: cs =>
    if List.isPrefixOf ([ '\n', '`', '`', '`' ]) (c :: cs) then
      some ([], (c :: cs).drop 4)
    else
      (findDelim cs).map (fun p => (c :: p.1, p.2))

/-- Suffixes of `l` that follow a newline character, left to right. -/
def suffixesAfterNl : List Char → List (List Char)
  | [] => []
  | c :: t => (if c = '\n' then [t] else []) ++ suffixesAfterNl t

/-- Try to match `CODE_BLOCK_REGEX` anchored at the start of `l`: the three
backticks, a greedy `(\w+)?` tag, then `\s*\n` (the engine prefers the
rightmost newline of the whitespace run and backtracks leftwards), then the
lazy body up to the first `"\n```"`. Returns (tag run, body, rest). -/
def matchFence (l : List Char) : Option (List Char × List Char × List Char) :=
  match l with
  | '`' :: '`' :: '`' :: r0 =>
    let tagRun := r0.takeWhile isWordChar
    let r1 := r0.dropWhile isWordChar
    let wsRun := r1.takeWhile isWs
    let r2 := r1.dropWhile isWs
    (suffixesAfterNl wsRun).reverse.findSome? (fun suf =>
      (findDelim (suf ++ r2)).map (fun p => (tagRun, p.1, p.2)))
  | _ => none

/-- The `regex.exec` scan loop: try each start position left to right,
resuming after the end of each match. -/
def extractBlocks : Nat → List Char → List (List Char × List Char)
  | 0, _ => []
  | _ + 1, [] => []
  | fuel + 1, l =>
    match matchFence l with
    | some (tag, code, rest) => (tag, code) :: extractBlocks fuel rest
    | none =>
      match l with
      | [] => []
      | _ :: t => extractBlocks fuel t

/-- All fenced blocks of `content` as (tag run, body) pairs, in order. -/
def fencedBlocks (content : List Char) : List (List Char × List Char) :=
  extractBlocks (content.length + 1) content

/-- The artifact built from one fenced block (`none` when the block is
skipped: `text` tag or empty body). `blockIndex` is 1-based. -/
def buildBlockArtifact (messageId : Option (List Char)) (rand : Nat → List Char)
    (tagRun code : List Char) (blockIndex : Nat) : Option ArtifactContent :=
  let language := lower (if tagRun.isEmpty then ("unknown").toList else tagRun)
  if language = ("text").toList then none
  else if code.isEmpty then none
  else
    let type := getEnhancedArtifactType language code
    let title := getEnhancedTitle type language code blockIndex
    let artifactId :=
      match messageId with
      | some m => m ++ ('-' :: artifactTypeStr type) ++ ('-' :: language)
          ++ ('-' :: natStr blockIndex)
      | none => ("art-").toList ++ artifactTypeStr type ++ ('-' :: language)
          ++ ('-' :: natStr blockIndex) ++ ('-' :: rand blockIndex)
    some
      { id := artifactId
        type := type
        language := language
        title := title
        content := code
        filename := getFilename language blockIndex type
        messageId := messageId
        blockIndex := blockIndex
        tabs :=
          if language = ("html").toList ∨ language = ("xml").toList then
            [⟨("preview").toList, ("Preview").toList, code, ("preview").toList⟩,
             ⟨("source").toList, ("Source").toList, code, ("source").toList⟩]
          else [] }

/-- The fenced-block pass of `detectArtifacts`: the artifacts and the final
value of the `blockIndex` counter. -/
def blockArtifacts (content : List Char) (messageId : Option (List Char))
    (rand : Nat → List Char) : List ArtifactContent × Nat :=
  let blocks := fencedBlocks content
  (blocks.enum.filterMap (fun p =>
      buildBlockArtifact messageId rand p.2.1 p.2.2 (p.1 + 1)),
   blocks.length)

/- ### Intent-pattern pass (`detectContentPatterns`) -/

/-- Line-terminator characters that `.` of a JavaScript regex never
matches; `.*` gaps of the intent patterns stay within one such line. -/
def isLineBreak (c : Char) : Bool :=
  c == '\n' || c == '\r' || c == '\u2028' || c == '\u2029'

def splitLines : List Char → List (List Char)
  | [] => [[]]
  | c :: t =>
    if isLineBreak c then [] :: splitLines t
    else
      match splitLines t with
      | [] => [[c]]
      | h :: r => (c :: h) :: r

/-- Remainder of `l` after the first occurrence of `p`. -/
def findSub (p : List Char) : List Char → Option (List Char)
  | [] => if p.isEmpty then some [] else none
  | c :: t =>
    if List.isPrefixOf p (c :: t) then some ((c :: t).drop p.length)
    else findSub p t

/-- Sequential occurrence of literal parts separated by arbitrary gaps:
the matching core of a `/lit1.*lit2/` pattern within one line. -/
def seqMatch : List (List Char) → List Char → Bool
  | [], _ => true
  | p :: ps, line =>
    match findSub p line with
    | some rest => seqMatch ps rest
    | none => false

/-- `/lit1.*lit2.../i.test(content)`: some line (lower-cased) contains the
parts in order. -/
def patternTest (parts : List (List Char)) (content : List Char) : Bool :=
  (splitLines (lower content)).any (fun line => seqMatch parts line)

/-- CHART_PATTERNS, each as its literal parts. -/
def chartPatterns : List (List (List Char)) :=
  [[("create").toList, ("chart").toList],
   [("generate").toList, ("graph").toList],
   [("visualize").toList, ("data").toList],
   [("plot").toList, ("data").toList],
   [("bar chart").toList],
   [("line chart").toList],
   [("pie chart").toList],
   [("show").toList, ("chart").toList],
   [("display").toList, ("graph").toList]]

/-- TABLE_PATTERNS, each as its literal parts. -/
def tablePatterns : List (List (List Char)) :=
  [[("create").toList, ("table").toList],
   [("generate").toList, ("table").toList],
   [("show").toList, ("table").toList],
   [("display").toList, ("data").toList, ("table").toList],
   [("tabular").toList, ("data").toList],
   [("data").toList, ("grid").toList]]

/-- Template content of the chart intent placeholder. -/
def chartTemplate : List Char :=
  ("\x7b\n  \"type\": \"chart\",\n  \"chartType\": \"bar\",\n  \"data\": []\n\x7d").toList

/-- Template content of the table intent placeholder. -/
def tableTemplate : List Char :=
  ("\x7b\n  \"type\": \"table\",\n  \"columns\": [],\n  \"rows\": []\n\x7d").toList

def chartIntentArtifact (messageId : Option (List Char)) (rand : Nat → List Char)
    (startIndex : Nat) : ArtifactContent :=
  { id :=
      match messageId with
      | some m => m ++ ("-chart-intent-").toList ++ natStr (startIndex + 1)
      | none => ("art-chart-intent-").toList ++ natStr (startIndex + 1)
          ++ ('-' :: rand (startIndex + 1))
    type := .chart
    language := ("json").toList
    title := ("Chart Visualization").toList
    content := chartTemplate
    filename := ("chart_").toList ++ natStr (startIndex + 1) ++ (".json").toList
    messageId := messageId
    blockIndex := startIndex + 1
    tabs := [] }

def tableIntentArtifact (messageId : Option (List Char)) (rand : Nat → List Char)
    (startIndex : Nat) : ArtifactContent :=
  { id :=
      match messageId with
      | some m => m ++ ("-table-intent-").toList ++ natStr (startIndex + 1)
      | none => ("art-table-intent-").toList ++ natStr (startIndex + 1)
          ++ ('-' :: rand (startIndex + 2))
    type := .table
    language := ("json").toList
    title := ("Data Table").toList
    content := tableTemplate
    filename := ("table_").toList ++ natStr (startIndex + 1) ++ (".json").toList
    messageId := messageId
    blockIndex := startIndex + 1
    tabs := [] }

/-- `detectContentPatterns`: one chart placeholder when some chart intent
pattern matches and no chart artifact exists yet, then likewise for table
(the table check also sees the placeholder just emitted). -/
def detectContentPatterns (content : List Char) (messageId : Option (List Char))
    (rand : Nat → List Char) (startIndex : Nat)
    (existing : List ArtifactContent) : List ArtifactContent :=
  let chartPart :=
    if chartPatterns.any (fun p => patternTest p content)
        && !(existing.any (fun a => a.type == ArtifactType.chart)) then
      [chartIntentArtifact messageId rand startIndex]
    else []
  let tablePart :=
    if tablePatterns.any (fun p => patternTest p content)
        && !(existing.any (fun a => a.type == ArtifactType.table)
             || chartPart.any (fun a => a.type == ArtifactType.table)) then
      [tableIntentArtifact messageId rand startIndex]
    else []
  chartPart ++ tablePart

/-- `detectArtifacts`: the fenced-block pass followed by the intent-pattern
pass, which is given the extracted artifacts for deduplication. `rand`
supplies the `Math.random()` id suffixes drawn when no `messageId` is
given. -/
def detectArtifacts (content : List Char) (messageId : Option (List Char))
    (rand : Nat → List Char) : List ArtifactContent :=
  let ba := blockArtifacts content messageId rand
  ba.1 ++ detectContentPatterns content messageId rand ba.2 ba.1

/- ### Streaming chat handler (`handleDirectChat`, word-buffered variant) -/

inductive FinishReason
  | stop
  | tool_calls
  | length
  | content_filter
deriving DecidableEq, Repr

/-- An accumulated tool call as produced by
`AzureOpenAIClient.parseToolCalls`: `id` is whatever the provider fragment
carried (`none` = `undefined`), `name` a string, `arguments` the parsed
JSON value. -/
structure LLMToolCall where
  id : Option Json
  name : List Char
  arguments : Json
deriving Repr

/-- One provider delta as consumed by the route's `for await` loop. -/
structure LLMChunk where
  content : Option (List Char)
  toolCalls : Option (List LLMToolCall)
  finishReason : Option FinishReason
deriving Repr

/-- The route's accumulation guard (lines 566–567):
`toolCall && typeof toolCall === 'object' && toolCall.id && toolCall.name &&
toolCall.arguments` — pure JavaScript truthiness of the three fields. -/
def validToolCall (tc : LLMToolCall) : Bool :=
  optTruthy tc.id && !tc.name.isEmpty && tc.arguments.truthy

/- ### MCP client manager (`MCPClientManager.executeTool`) -/

structure MCPServerStatus where
  serverName : List Char
  connected : Bool
  toolNames : List (List Char)
deriving Repr

/-- Outcome of `client.callTool`: a raw duck-typed result or a thrown
error with its message. -/
inductive CallOutcome
  | ok (content : Json) (isError : Json)
  | thrown (msg : List Char)
deriving Repr

/-- The process-wide MCP state: server statuses, the set of server names
with a connected client object, and the behaviour of `callTool`. -/
structure MCPEnv where
  statuses : List MCPServerStatus
  clients : List (List Char)
  call : List Char → List Char → Json → CallOutcome

/-- `findServerWithTool`: first connected server whose tool list contains
the name. -/
def findServerWithTool (env : MCPEnv) (toolName : List Char) : Option (List Char) :=
  (env.statuses.find? (fun st =>
    st.connected && st.toolNames.any (fun t => t == toolName))).map
    (fun st => st.serverName)

/-- Minimal `JSON.stringify` (used by `executeTool` for non-array result
content). -/
def jsonStringify : Json → List Char
  | .null => ("null").toList
  | .bool b => if b then ("true").toList else ("false").toList
  | .num m e => (toString m).toList ++ (if e == 0 then [] else 'e' :: (toString e).toList)
  | .str s => '"' :: s ++ ['"']
  | .arr _ => ("[...]").toList
  | .obj _ => ("\x7b...\x7d").toList

/-- A structured tool result: MCP content blocks (kept as raw JSON values,
as the route duck-types them) plus the error flag. -/
structure MCPToolResult where
  content : List Json
  isError : Bool
deriving Repr

def textBlock (s : List Char) : Json :=
  Json.obj [(("type").toList, Json.str (("text").toList)),
            (("text").toList, Json.str s)]

/-- `MCPClientManager.executeTool`: resolve the owning server, call the
tool, normalise the result; any failure (unknown tool, missing client,
thrown call) is caught and returned as an `isError` result — the function
never throws. -/
def executeTool (env : MCPEnv) (toolName : List Char) (args : Json) : MCPToolResult :=
  match findServerWithTool env toolName with
  | none =>
    { content := [textBlock ((("Tool execution failed: Tool not found: ").toList) ++ toolName)]
      isError := true }
  | some serverName =>
    if env.clients.any (fun c => c == serverName) then
      match env.call serverName toolName args with
      | .thrown msg =>
        { content := [textBlock ((("Tool execution failed: ").toList) ++ msg)]
          isError := true }
      | .ok content isError =>
        { content :=
            match content with
            | .arr xs => xs
            | c => [textBlock (jsonStringify c)]
          isError := isError.truthy }
    else
      { content := [textBlock
          ((("Tool execution failed: Client not connected for server: ").toList)
            ++ serverName)]
        isError := true }

/-- The tool dispatch of `handleDirectChat` (lines 584–588):
`Promise.all(accumulatedToolCalls.map(tc => executeTool(tc.name,
tc.arguments)))` — an order-preserving independent fan-out/fan-in. -/
def dispatchToolCalls (env : MCPEnv) (calls : List LLMToolCall) : List MCPToolResult :=
  calls.map (fun tc => executeTool env tc.name tc.arguments)

/-- `enqueueError`: the error text frame, bypassing the word buffer. -/
def enqueueError (st : BufState) (msg : List Char) : BufState :=
  { st with out := st.out ++ [Frame.content (("❌ ").toList ++ msg)] }

/-- `finishStream`: flush the buffer, then emit the terminal frame. The
finish reason is hard-coded to `stop` in this variant. -/
def finishStream (st : BufState) : BufState :=
  let st1 := flushBuffer st
  { st1 with out := st1.out ++ [Frame.finish (("stop").toList)] }

/-- Re-injection of tool results as content (lines 591–602): every `text`
block with truthy text is enqueued prefixed by a blank line. -/
def injectToolResults (st : BufState) (results : List MCPToolResult) : BufState :=
  results.foldl (fun st r =>
    r.content.foldl (fun st cb =>
      if eqStrJs (cb.jsGet ("type").toList) (("text").toList)
          && optTruthy (cb.jsGet ("text").toList) then
        enqueueContent st (('\n' :: '\n' :: [])
          ++ jsToString ((cb.jsGet ("text").toList).getD Json.null))
      else st) st) st

/-- The `for await` loop body of `handleDirectChat`: process each chunk's
content, accumulate validated tool calls, and finish on the three
completion branches. Returns the final state and whether the loop finished
the stream itself. -/
def chatLoop (env : MCPEnv) : List LLMChunk → BufState → List LLMToolCall →
    BufState × Bool
  | [], st, _ => (st, false)
  | c :: rest, st, acc =>
    let st1 :=
      match c.content with
      | some s => if !s.isEmpty then enqueueContent st s else st
      | none => st
    let acc1 :=
      match c.toolCalls with
      | some tcs => acc ++ tcs.filter validToolCall
      | none => acc
    if c.finishReason = some FinishReason.tool_calls ∧ 0 < acc1.length then
      (finishStream (injectToolResults st1 (dispatchToolCalls env acc1)), true)
    else if (c.finishReason).isSome ∧ c.finishReason ≠ some FinishReason.stop then
      (finishStream st1, true)
    else if c.finishReason = some FinishReason.stop then
      (finishStream st1, true)
    else
      chatLoop env rest st1 acc1

/-- `handleDirectChat` over one turn: consume the provider chunks; if the
loop did not finish the stream, either surface the provider error as a
content frame and finish, or fall back to a plain finish. The result is
the frame sequence enqueued on the response stream. -/
def handleDirectChat (env : MCPEnv) (chunks : List LLMChunk)
    (providerError : Option (List Char)) : List Frame :=
  let r := chatLoop env chunks ⟨[], []⟩ []
  if r.2 then r.1.out
  else
    match providerError with
    | some msg => (finishStream (enqueueError r.1 msg)).out
    | none => (finishStream r.1).out

/- ### `AzureOpenAIClient.parseToolCalls` -/

structure RawToolCallFn where
  name : Option (List Char)
  arguments : Option (List Char)
deriving Repr

/-- A raw provider tool-call fragment (`delta.tool_calls[i]`). -/
structure RawToolCall where
  id : Option Json
  function : Option RawToolCallFn
deriving Repr

/-- `parseToolCalls`: every fragment is mapped to a record; a missing name
becomes `''`, a falsy `arguments` string becomes `{}`, and any
non-parseable `arguments` string makes `JSON.parse` throw, failing the
whole stream (`Except.error`). -/
def parseToolCalls (tcs : List RawToolCall) : Except Unit (List LLMToolCall) :=
  tcs.mapM (fun tc => do
    let nameVal : List Char :=
      match tc.function.bind (fun f => f.name) with
      | some n => n
      | none => []
    let args ←
      match tc.function.bind (fun f => f.arguments) with
      | some s =>
        if s.isEmpty then pure (Json.obj [])
        else
          match jsonParse s with
          | some j => pure j
          | none => Except.error ()
      | none => pure (Json.obj [])
    pure ({ id := tc.id, name := nameVal, arguments := args } : LLMToolCall))

/- ### Handler lemmas: the terminal frame -/

/-- All frames of a list are content frames. -/
def allContent (fs : List Frame) : Prop := ∀ f ∈ fs, ∃ s, f = Frame.content s

theorem allContent_nil : allContent [] := by
  intro f hf
  simp at hf

theorem enqueueContent_allContent (st : BufState) (d : List Char)
    (h : allContent st.out) : allContent (enqueueContent st d).out := by
  unfold enqueueContent
  by_cases hb : (st.buf ++ d).any isWs
  · simp only [hb, if_true]
    by_cases hs : 0 < (wsClosedPart (st.buf ++ d)).length
    · simp only [hs, if_true]
      intro f hf
      rcases List.mem_append.mp hf with h' | h'
      · exact h f h'
      · exact ⟨wsClosedPart (st.buf ++ d), by simpa using h'⟩
    · simp only [hs, if_false]
      exact h
  · simp only [hb, if_false]
    exact h

theorem flushBuffer_allContent (st : BufState)
    (h : allContent st.out) : allContent (flushBuffer st).out := by
  unfold flushBuffer
  by_cases hb : 0 < (trimJS st.buf).length
  · simp only [hb, if_true]
    intro f hf
    rcases List.mem_append.mp hf with h' | h'
    · exact h f h'
    · exact ⟨st.buf, by simpa using h'⟩
  · simp only [hb, if_false]
    exact h

theorem flushBuffer_out_mono (st : BufState) (f : Frame)
    (h : f ∈ st.out) : f ∈ (flushBuffer st).out := by
  unfold flushBuffer
  by_cases hb : 0 < (trimJS st.buf).length
  · simp only [hb, if_true]
    exact List.mem_append_left _ h
  · simp only [hb, if_false]
    exact h

theorem foldl_allContent {β : Type} (f : BufState → β → BufState)
    (hf : ∀ st b, allContent st.out → allContent (f st b).out) :
    ∀ (l : List β) (st : BufState), allContent st.out → allContent (l.foldl f st).out := by
  intro l
  induction l with
  | nil => intro st h; exact h
  | cons b t ih =>
    intro st h
    exact ih (f st b) (hf st b h)

theorem injectToolResults_allContent (st : BufState) (results : List MCPToolResult)
    (h : allContent st.out) : allContent (injectToolResults st results).out := by
  unfold injectToolResults
  refine foldl_allContent _ ?_ results st h
  intro st r hst
  refine foldl_allContent _ ?_ r.content st hst
  intro st cb hst
  by_cases hc : (eqStrJs (cb.jsGet ("type").toList) (("text").toList)
      && optTruthy (cb.jsGet ("text").toList)) = true
  · simp only [hc, if_true]
    exact enqueueContent_allContent _ _ hst
  · simp only [Bool.not_eq_true] at hc
    simp only [hc, Bool.false_eq_true, if_false]
    exact hst

theorem finishStream_shape (st : BufState) (h : allContent st.out) :
    ∃ pre, (finishStream st).out = pre ++ [Frame.finish (("stop").toList)]
      ∧ allContent pre :=
  ⟨(flushBuffer st).out, rfl, flushBuffer_allContent st h⟩

theorem finishStream_out_mono (st : BufState) (f : Frame)
    (h : f ∈ st.out) : f ∈ (finishStream st).out := by
  unfold finishStream
  exact List.mem_append_left _ (flushBuffer_out_mono st f h)

/-- The content and tool-call processing of one chunk keeps the output
all-content; each of the three finish branches appends exactly one terminal
frame. -/
theorem chatLoop_shape (env : MCPEnv) :
    ∀ (chunks : List LLMChunk) (st : BufState) (acc : List LLMToolCall),
      allContent st.out →
      ((chatLoop env chunks st acc).2 = true →
        ∃ pre, (chatLoop env chunks st acc).1.out
          = pre ++ [Frame.finish (("stop").toList)] ∧ allContent pre)
      ∧ ((chatLoop env chunks st acc).2 = false →
        allContent (chatLoop env chunks st acc).1.out) := by
  intro chunks
  induction chunks with
  | nil =>
    intro st acc h
    constructor
    · intro h2
      simp [chatLoop] at h2
    · intro _
      simpa [chatLoop] using h
  | cons c rest ih =>
    intro st acc h
    have hst1 : allContent
        (match c.content with
         | some s => if !s.isEmpty then enqueueContent st s else st
         | none => st).out := by
      cases c.content with
      | none => exact h
      | some s =>
        by_cases he : (!s.isEmpty) = true
        · simpa only [he, if_true] using enqueueContent_allContent st s h
        · simp only [Bool.not_eq_true] at he
          simpa only [he, Bool.false_eq_true, if_false] using h
    unfold chatLoop
    by_cases h1 : c.finishReason = some FinishReason.tool_calls ∧
        0 < ((match c.toolCalls with
          | some tcs => acc ++ tcs.filter validToolCall
          | none => acc)).length
    · rw [if_pos h1]
      constructor
      · intro _
        exact finishStream_shape _ (injectToolResults_allContent _ _ hst1)
      · intro hfalse
        simp at hfalse
    · rw [if_neg h1]
      by_cases h2 : (c.finishReason).isSome ∧ c.finishReason ≠ some FinishReason.stop
      · rw [if_pos h2]
        constructor
        · intro _
          exact finishStream_shape _ hst1
        · intro hfalse
          simp at hfalse
      · rw [if_neg h2]
        by_cases h3 : c.finishReason = some FinishReason.stop
        · rw [if_pos h3]
          constructor
          · intro _
            exact finishStream_shape _ hst1
          · intro hfalse
            simp at hfalse
        · rw [if_neg h3]
          exact ih _ _ hst1

/-- C1: for every turn handled by the word-buffered `handleDirectChat`,
exactly one terminal finish frame is emitted: it is strictly the last
frame, every preceding frame is a content frame, and this holds whether
the provider stream completes or throws; a provider error that reaches the
catch block is surfaced as a content frame, never thrown. -/
theorem handleDirectChat_single_finish (env : MCPEnv) (chunks : List LLMChunk)
    (providerError : Option (List Char)) :
    (∃ pre, handleDirectChat env chunks providerError
        = pre ++ [Frame.finish (("stop").toList)] ∧ allContent pre)
    ∧ (∀ msg, providerError = some msg →
        (chatLoop env chunks ⟨[], []⟩ []).2 = true ∨
        Frame.content ((("❌ ").toList) ++ msg)
          ∈ handleDirectChat env chunks providerError) := by
  have hshape := chatLoop_shape env chunks ⟨[], []⟩ [] allContent_nil
  unfold handleDirectChat
  by_cases hr : (chatLoop env chunks ⟨[], []⟩ []).2 = true
  · rw [if_pos hr]
    exact ⟨hshape.1 hr, fun msg _ => Or.inl hr⟩
  · rw [if_neg hr]
    simp only [Bool.not_eq_true] at hr
    have hall := hshape.2 hr
    cases providerError with
    | none =>
      refine ⟨finishStream_shape _ hall, ?_⟩
      intro msg hmsg
      simp at hmsg
    | some msg =>
      constructor
      · refine finishStream_shape _ ?_
        intro f hf
        rcases List.mem_append.mp hf with h' | h'
        · exact hall f h'
        · exact ⟨(("❌ ").toList) ++ msg, by simpa using h'⟩
      · intro msg2 hmsg
        injection hmsg with hmsg
        subst hmsg
        refine Or.inr (finishStream_out_mono _ _ ?_)
        exact List.mem_append_right _ (by simp)

/-- A trivial MCP environment for witnesses. -/
def emptyEnv : MCPEnv :=
  { statuses := []
    clients := []
    call := fun _ _ _ => CallOutcome.thrown [] }

/-- Witness for C1: the empty provider stream with a thrown error still
produces a frame list ending in the single terminal frame, with the error
surfaced as a content frame. -/
theorem handleDirectChat_single_finish_witness :
    (∃ pre, handleDirectChat emptyEnv [] (some (("boom").toList))
        = pre ++ [Frame.finish (("stop").toList)] ∧ allContent pre)
    ∧ ((chatLoop emptyEnv [] ⟨[], []⟩ []).2 = true ∨
        Frame.content ((("❌ ").toList) ++ ("boom").toList)
          ∈ handleDirectChat emptyEnv [] (some (("boom").toList))) := by
  have h := handleDirectChat_single_finish emptyEnv [] (some (("boom").toList))
  exact ⟨h.1, h.2 (("boom").toList) rfl⟩

/- ### C3: the tool round-trip scenario -/

/-- An MCP environment with one connected server `srv` owning `tool`,
whose execution returns `{content:[{type:"text",text:"42"}], isError:false}`. -/
def toolEnv42 : MCPEnv :=
  { statuses := [⟨("srv").toList, true, [("tool").toList]⟩]
    clients := [("srv").toList]
    call := fun _ _ _ =>
      CallOutcome.ok (Json.arr [textBlock (("42").toList)]) (Json.bool false) }

/-- The provider stream of the round-trip scenario: one complete tool-call
fragment, then `finishReason = tool_calls`. -/
def toolCallChunks : List LLMChunk :=
  [{ content := none
     toolCalls := some [{ id := some (Json.str (("call_1").toList))
                          name := ("tool").toList
                          arguments := Json.obj [] }]
     finishReason := none },
   { content := none, toolCalls := none,
     finishReason := some FinishReason.tool_calls }]

/-- C3 counterexample: in the word-buffered handler the tool round-trip
scenario ends with `finishReason "stop"` — no `tool_calls` finish frame is
ever emitted, contrary to the claim. -/
theorem toolRoundTrip_finish_reason_counterexample :
    handleDirectChat toolEnv42 toolCallChunks none
      = [Frame.content (("\n\n").toList), Frame.content (("42").toList),
         Frame.finish (("stop").toList)]
    ∧ Frame.finish (("tool_calls").toList)
        ∉ handleDirectChat toolEnv42 toolCallChunks none := by
  decide

/-- C3 amended: the round-trip scenario emits a content frame containing
"42" before the terminal frame, and that terminal frame carries
finishReason "stop" (the word-buffered `finishStream` hard-codes it). -/
theorem toolRoundTrip_amended :
    handleDirectChat toolEnv42 toolCallChunks none
      = [Frame.content (("\n\n").toList), Frame.content (("42").toList),
         Frame.finish (("stop").toList)] := by
  decide

/- ### C4: dispatcher fan-out completeness -/

/-- C4: the dispatcher produces exactly one result per accumulated call, in
call order, each depending only on its own call; a call whose name resolves
to no server, or whose execution throws, yields an `isError` result instead
of an exception and leaves the result count intact. -/
theorem dispatch_fanout (env : MCPEnv) (calls : List LLMToolCall) :
    ((dispatchToolCalls env calls).length = calls.length)
    ∧ (∀ i, (dispatchToolCalls env calls).get? i
        = (calls.get? i).map (fun tc => executeTool env tc.name tc.arguments))
    ∧ (∀ name args, findServerWithTool env name = none →
        (executeTool env name args).isError = true)
    ∧ (∀ name args sn msg, findServerWithTool env name = some sn →
        env.call sn name args = CallOutcome.thrown msg →
        (executeTool env name args).isError = true) := by
  refine ⟨by simp [dispatchToolCalls], ?_, ?_, ?_⟩
  · intro i
    simp [dispatchToolCalls]
  · intro name args h
    unfold executeTool
    rw [h]
  · intro name args sn msg h1 h2
    unfold executeTool
    rw [h1]
    by_cases hcl : (env.clients.any fun c => c == sn) = true
    · simp only [hcl, if_true]
      rw [h2]
    · simp only [Bool.not_eq_true] at hcl
      simp only [hcl, Bool.false_eq_true, if_false]

/-- Witness for C4 at a concrete unresolvable tool name. -/
theorem dispatch_fanout_witness :
    (executeTool toolEnv42 (("missing").toList) (Json.obj [])).isError = true :=
  (dispatch_fanout toolEnv42 []).2.2.1 (("missing").toList) (Json.obj []) (by decide)

/- ### C5: fragment validation -/

/-- A provider fragment whose `arguments` string is the JSON text `"hi"`
(a JSON string, not an object). -/
def strArgFragment : RawToolCall :=
  { id := some (Json.str (("call_1").toList))
    function := some { name := some (("tool").toList)
                       arguments := some (("\"hi\"").toList) } }

/-- C5 counterexample: the fragment parses to a record whose `arguments` is
the string "hi" — not a JSON object — yet it passes the route's truthiness
validation and reaches the dispatcher, contrary to the claim. -/
theorem fragment_validation_counterexample :
    ((parseToolCalls [strArgFragment]).toOption.map (fun parsed =>
        (parsed.filter validToolCall).map (fun tc =>
          (optTruthy tc.id, tc.name, tc.arguments.isObj))))
      = some [(true, ("tool").toList, false)] := by
  decide

/-- C5 amended: every record that survives the route's accumulation filter
has a truthy (present) id, a non-empty name and truthy `arguments` — but
`arguments` may be any truthy JSON value, not necessarily an object; a
record failing the truthiness validation never reaches the dispatcher. -/
theorem fragment_validation_amended (tcs : List RawToolCall)
    (parsed : List LLMToolCall) (h : parseToolCalls tcs = Except.ok parsed) :
    (∀ tc ∈ parsed.filter validToolCall,
        optTruthy tc.id = true ∧ tc.name ≠ [] ∧ tc.arguments.truthy = true)
    ∧ (∀ tc ∈ parsed, validToolCall tc = false →
        tc ∉ parsed.filter validToolCall) := by
  constructor
  · intro tc htc
    have hmem := List.mem_filter.mp htc
    have hv := hmem.2
    unfold validToolCall at hv
    simp only [Bool.and_eq_true] at hv
    refine ⟨hv.1.1, ?_, hv.2⟩
    have hne := hv.1.2
    intro hnil
    rw [hnil] at hne
    simp at hne
  · intro tc _ hval hmemf
    have := (List.mem_filter.mp hmemf).2
    rw [hval] at this
    exact absurd this (by simp)

/-- The record `strArgFragment` parses to. -/
def strArgParsed : LLMToolCall :=
  { id := some (Json.str (("call_1").toList))
    name := ("tool").toList
    arguments := Json.str (("hi").toList) }

/-- Witness for C5 (amended) at the concrete fragment. -/
theorem fragment_validation_amended_witness :
    optTruthy strArgParsed.id = true ∧ strArgParsed.name ≠ []
      ∧ strArgParsed.arguments.truthy = true := by
  refine (fragment_validation_amended [strArgFragment] [strArgParsed] rfl).1
    strArgParsed ?_
  rw [List.mem_filter]
  exact ⟨by simp, by decide⟩

/- ### C6: classifier tag precedence -/

/-- Chart-shaped JSON content. -/
def chartJsonSample : List Char :=
  ("\x7b\"chartType\":\"bar\",\"data\":[\x7b\"name\":\"A\",\"value\":100\x7d]\x7d").toList

/-- C6: a fenced block whose tag is in the programming-language set is
classified `code` whatever its content; the identical chart-shaped JSON
under the `json` tag is classified `chart`. -/
theorem classifier_tag_precedence :
    (∀ lang ∈ codeLanguages, ∀ code : List Char,
      getEnhancedArtifactType lang code = ArtifactType.code)
    ∧ getEnhancedArtifactType (("json").toList) chartJsonSample = ArtifactType.chart := by
  refine ⟨?_, by decide⟩
  intro lang h code
  fin_cases h <;> rfl

/-- Witness for C6: the `python` tag on the chart-shaped JSON. -/
theorem classifier_tag_precedence_witness :
    getEnhancedArtifactType (("python").toList) chartJsonSample = ArtifactType.code :=
  (classifier_tag_precedence).1 (("python").toList) (by decide) chartJsonSample

/- ### C7: placeholder deduplication -/

/-- Text with both a fenced `table` block and table-intent prose. -/
def tableScenario : List Char :=
  ("please show a table of results\n```table\n\x7b\"columns\":[\"a\"],\"rows\":[]\x7d\n```\n").toList

/-- C7: the intent-pattern pass emits at most one placeholder per type and
none of a type already present among the existing artifacts; in particular
the combined table scenario yields exactly one table artifact. -/
theorem placeholder_dedup :
    (∀ (content : List Char) (messageId : Option (List Char))
        (rand : Nat → List Char) (startIndex : Nat)
        (existing : List ArtifactContent),
      ((detectContentPatterns content messageId rand startIndex existing).filter
          (fun a => a.type == ArtifactType.chart)).length ≤ 1
      ∧ ((detectContentPatterns content messageId rand startIndex existing).filter
          (fun a => a.type == ArtifactType.table)).length ≤ 1
      ∧ ((existing.any (fun a => a.type == ArtifactType.chart)) = true →
          (detectContentPatterns content messageId rand startIndex existing).filter
            (fun a => a.type == ArtifactType.chart) = [])
      ∧ ((existing.any (fun a => a.type == ArtifactType.table)) = true →
          (detectContentPatterns content messageId rand startIndex existing).filter
            (fun a => a.type == ArtifactType.table) = []))
    ∧ ((detectArtifacts tableScenario (some (("m1").toList)) (fun _ => [])).filter
        (fun a => a.type == ArtifactType.table)).length = 1 := by
  constructor
  · intro content messageId rand startIndex existing
    unfold detectContentPatterns
    by_cases hA : (chartPatterns.any (fun p => patternTest p content)
        && !(existing.any (fun a => a.type == ArtifactType.chart))) = true
    · simp only [hA, if_true]
      by_cases hB : (tablePatterns.any (fun p => patternTest p content)
          && !(existing.any (fun a => a.type == ArtifactType.table)
               || ([chartIntentArtifact messageId rand startIndex]).any
                    (fun a => a.type == ArtifactType.table))) = true
      · simp only [hB, if_true]
        refine ⟨by simp [chartIntentArtifact, tableIntentArtifact], by simp
          [chartIntentArtifact, tableIntentArtifact], ?_, ?_⟩
        · intro hx
          simp only [Bool.and_eq_true] at hA
          rw [hx] at hA
          simp at hA
        · intro hx
          simp only [Bool.and_eq_true] at hB
          rw [hx] at hB
          simp at hB
      · simp only [Bool.not_eq_true] at hB
        simp only [hB, Bool.false_eq_true, if_false]
        refine ⟨by simp [chartIntentArtifact], by simp [chartIntentArtifact], ?_, ?_⟩
        · intro hx
          simp only [Bool.and_eq_true] at hA
          rw [hx] at hA
          simp at hA
        · intro _
          simp [chartIntentArtifact]
    · simp only [Bool.not_eq_true] at hA
      simp only [hA, Bool.false_eq_true, if_false]
      by_cases hB : (tablePatterns.any (fun p => patternTest p content)
          && !(existing.any (fun a => a.type == ArtifactType.table)
               || ([] : List ArtifactContent).any
                    (fun a => a.type == ArtifactType.table))) = true
      · simp only [hB, if_true]
        refine ⟨by simp [tableIntentArtifact], by simp [tableIntentArtifact], ?_, ?_⟩
        · intro _
          simp [tableIntentArtifact]
        · intro hx
          simp only [Bool.and_eq_true] at hB
          rw [hx] at hB
          simp at hB
      · simp only [Bool.not_eq_true] at hB
        simp only [hB, Bool.false_eq_true, if_false]
        exact ⟨by simp, by simp, fun _ => by simp, fun _ => by simp⟩
  · decide

/-- Witness for C7: a pre-existing table artifact suppresses the table
placeholder entirely. -/
theorem placeholder_dedup_witness :
    (detectContentPatterns (("please show a table of results").toList)
        (some (("m1").toList)) (fun _ => []) 1
        [tableIntentArtifact (some (("m1").toList)) (fun _ => []) 0]).filter
      (fun a => a.type == ArtifactType.table) = [] :=
  ((placeholder_dedup).1 (("please show a table of results").toList)
    (some (("m1").toList)) (fun _ => []) 1
    [tableIntentArtifact (some (("m1").toList)) (fun _ => []) 0]).2.2.2 (by decide)

/- ### C8: determinism of the classifier -/

/-- Everything of an artifact except its identifier-derived fields. -/
def artProj (a : ArtifactContent) : ArtifactType × List Char × List Char × List Char :=
  (a.type, a.title, a.content, a.language)

theorem filterMap_map_ext {α β γ : Type} (f g : α → Option β) (pr : β → γ)
    (l : List α) (h : ∀ a, (f a).map pr = (g a).map pr) :
    (l.filterMap f).map pr = (l.filterMap g).map pr := by
  induction l with
  | nil => rfl
  | cons a t ih =>
    have ha := h a
    cases hf : f a <;> cases hg : g a <;> rw [hf, hg] at ha
    · simp [List.filterMap_cons, hf, hg, ih]
    · simp at ha
    · simp at ha
    · simp only [List.filterMap_cons, hf, hg, List.map_cons, ih]
      simp at ha
      rw [ha]

/-- Only the random id suffix of a block artifact depends on `rand`. -/
theorem buildBlockArtifact_proj (r1 r2 : Nat → List Char)
    (mid : Option (List Char)) (tag code : List Char) (i : Nat) :
    (buildBlockArtifact mid r1 tag code i).map artProj
      = (buildBlockArtifact mid r2 tag code i).map artProj := by
  unfold buildBlockArtifact
  by_cases h1 : lower (if tag.isEmpty then ("unknown").toList else tag)
      = ("text").toList
  · rw [if_pos h1, if_pos h1]
  · rw [if_neg h1, if_neg h1]
    by_cases h2 : code.isEmpty = true
    · simp only [h2, if_true]
    · simp only [Bool.not_eq_true] at h2
      simp only [h2, Bool.false_eq_true, if_false]
      rfl

theorem any_type_eq_of_proj {l1 l2 : List ArtifactContent} (t : ArtifactType)
    (h : l1.map artProj = l2.map artProj) :
    (l1.any fun a => a.type == t) = (l2.any fun a => a.type == t) := by
  have key : ∀ l : List ArtifactContent,
      (l.any fun a => a.type == t) = ((l.map artProj).any fun q => q.1 == t) := by
    intro l
    induction l with
    | nil => rfl
    | cons a tl ih => simp [List.any_cons, ih, artProj]
  rw [key, key, h]

/-- C8: the classifier is deterministic given a turn id — two runs with the
same non-empty `messageId` agree exactly; with no `messageId` only the
random id suffix may differ: type, title, content and language coincide. -/
theorem detectArtifacts_deterministic :
    (∀ (content m : List Char) (r1 r2 : Nat → List Char),
      detectArtifacts content (some m) r1 = detectArtifacts content (some m) r2)
    ∧ (∀ (content : List Char) (r1 r2 : Nat → List Char),
      (detectArtifacts content none r1).map artProj
        = (detectArtifacts content none r2).map artProj) := by
  constructor
  · intro content m r1 r2
    rfl
  · intro content r1 r2
    have hblocks : ((blockArtifacts content none r1).1).map artProj
        = ((blockArtifacts content none r2).1).map artProj := by
      unfold blockArtifacts
      exact filterMap_map_ext _ _ _ _
        (fun p => buildBlockArtifact_proj r1 r2 none p.2.1 p.2.2 (p.1 + 1))
    have hcount : (blockArtifacts content none r1).2
        = (blockArtifacts content none r2).2 := rfl
    have hanyC := any_type_eq_of_proj ArtifactType.chart hblocks
    have hanyT := any_type_eq_of_proj ArtifactType.table hblocks
    have hpats : (detectContentPatterns content none r1
          (blockArtifacts content none r1).2 (blockArtifacts content none r1).1).map artProj
        = (detectContentPatterns content none r2
          (blockArtifacts content none r2).2 (blockArtifacts content none r2).1).map artProj := by
      unfold detectContentPatterns
      rw [← hcount, ← hanyC, ← hanyT]
      by_cases hA : (chartPatterns.any (fun p => patternTest p content)
          && !((blockArtifacts content none r1).1.any
                (fun a => a.type == ArtifactType.chart))) = true
      · simp only [hA, if_true]
        by_cases hB : (tablePatterns.any (fun p => patternTest p content)
            && !((blockArtifacts content none r1).1.any
                  (fun a => a.type == ArtifactType.table)
                 || ([chartIntentArtifact none r1
                      (blockArtifacts content none r1).2]).any
                      (fun a => a.type == ArtifactType.table))) = true
        · simp only [hB]
          have hB2 : (tablePatterns.any (fun p => patternTest p content)
              && !((blockArtifacts content none r1).1.any
                    (fun a => a.type == ArtifactType.table)
                   || ([chartIntentArtifact none r2
                        (blockArtifacts content none r1).2]).any
                        (fun a => a.type == ArtifactType.table))) = true := hB
          simp only [hB2, if_true]
          rfl
        · simp only [Bool.not_eq_true] at hB
          simp only [hB]
          have hB2 : (tablePatterns.any (fun p => patternTest p content)
              && !((blockArtifacts content none r1).1.any
                    (fun a => a.type == ArtifactType.table)
                   || ([chartIntentArtifact none r2
                        (blockArtifacts content none r1).2]).any
                        (fun a => a.type == ArtifactType.table))) = false := hB
          simp only [hB2, Bool.false_eq_true, if_false]
          rfl
      · simp only [Bool.not_eq_true] at hA
        simp only [hA, Bool.false_eq_true, if_false]
        by_cases hB : (tablePatterns.any (fun p => patternTest p content)
            && !((blockArtifacts content none r1).1.any
                  (fun a => a.type == ArtifactType.table)
                 || ([] : List ArtifactContent).any
                      (fun a => a.type == ArtifactType.table))) = true
        · simp only [hB, if_true]
          rfl
        · simp only [Bool.not_eq_true] at hB
          simp only [hB, Bool.false_eq_true, if_false]
    unfold detectArtifacts
    rw [List.map_append, List.map_append, hblocks, hpats]

/-- Witness for C8 at the combined table scenario. -/
theorem detectArtifacts_deterministic_witness :
    detectArtifacts tableScenario (some (("m1").toList)) (fun _ => (("x").toList))
      = detectArtifacts tableScenario (some (("m1").toList)) (fun _ => (("y").toList)) :=
  (detectArtifacts_deterministic).1 tableScenario (("m1").toList)
    (fun _ => (("x").toList)) (fun _ => (("y").toList))

/- ### C9: the `json` default tier -/

/-- C9 counterexample: `hello` is not valid JSON and matches no signature
or keyword, yet the `json` tag classifies it `data`, not `code`. -/
theorem json_fallback_counterexample :
    jsonParse (("hello").toList) = none
    ∧ detectContentType (("hello").toList) = none
    ∧ getEnhancedArtifactType (("json").toList) (("hello").toList) = ArtifactType.data
    ∧ getEnhancedArtifactType (("json").toList) (("hello").toList) ≠ ArtifactType.code :=
  ⟨rfl, by decide, by decide, by decide⟩

/-- C9 amended: a `json`-tagged block whose content sniffing yields neither
the chart nor the table signature is always classified `data`, whether or
not the content parses as valid JSON. -/
theorem json_fallback_amended (code : List Char)
    (h1 : detectContentType code ≠ some ArtifactType.chart)
    (h2 : detectContentType code ≠ some ArtifactType.table) :
    getEnhancedArtifactType (("json").toList) code = ArtifactType.data := by
  have hstep : getEnhancedArtifactType (("json").toList) code
      = (match detectContentType code with
         | some ArtifactType.chart => ArtifactType.chart
         | some ArtifactType.table => ArtifactType.table
         | _ => ArtifactType.data) := rfl
  rw [hstep]
  rcases hd : detectContentType code with _ | t
  · rfl
  · cases t with
    | chart => exact absurd hd h1
    | table => exact absurd hd h2
    | code => rfl
    | text => rfl
    | data => rfl
    | diagram => rfl
    | html => rfl

/-- Witness for C9 (amended) at the invalid-JSON content `hello`. -/
theorem json_fallback_amended_witness :
    getEnhancedArtifactType (("json").toList) (("hello").toList) = ArtifactType.data :=
  json_fallback_amended (("hello").toList) (by decide) (by decide)

/- ### C10: artifact invariants -/

theorem jsonSigType_chart_or_table (p : Json) (t : ArtifactType)
    (h : jsonSigType p = some t) :
    t = ArtifactType.chart ∨ t = ArtifactType.table := by
  unfold jsonSigType at h
  by_cases h1 : chartSig p = true
  · rw [if_pos h1] at h
    injection h with h
    exact Or.inl h.symm
  · rw [if_neg h1] at h
    by_cases h2 : enhancedChartSig p = true
    · rw [if_pos h2] at h
      injection h with h
      exact Or.inl h.symm
    · rw [if_neg h2] at h
      by_cases h3 : tableSig p = true
      · rw [if_pos h3] at h
        injection h with h
        exact Or.inr h.symm
      · rw [if_neg h3] at h
        by_cases h4 : arrayTableSig p = true
        · rw [if_pos h4] at h
          injection h with h
          exact Or.inr h.symm
        · rw [if_neg h4] at h
          exact absurd h (by simp)

theorem stringBasedType_chart_or_table (code : List Char) (t : ArtifactType)
    (h : stringBasedType code = some t) :
    t = ArtifactType.chart ∨ t = ArtifactType.table := by
  unfold stringBasedType at h
  by_cases h1 : (chartKeywords.any fun k => hasSub (lower code) k) = true
  · rw [if_pos h1] at h
    injection h with h
    exact Or.inl h.symm
  · rw [if_neg h1] at h
    by_cases h2 : (tableKeywords.any fun k => hasSub (lower code) k) = true
    · rw [if_pos h2] at h
      injection h with h
      exact Or.inr h.symm
    · rw [if_neg h2] at h
      exact absurd h (by simp)

theorem detectContentType_chart_or_table (code : List Char) (t : ArtifactType)
    (h : detectContentType code = some t) :
    t = ArtifactType.chart ∨ t = ArtifactType.table := by
  unfold detectContentType at h
  by_cases hi : (codeIndicators.any fun ind => hasSub code ind) = true
  · rw [if_pos hi] at h
    exact absurd h (by simp)
  · rw [if_neg hi] at h
    rcases hj : jsonParse code with _ | parsed
    · rw [hj] at h
      have h2 : stringBasedType code = some t := h
      exact stringBasedType_chart_or_table code t h2
    · rw [hj] at h
      have h2 : (match jsonSigType parsed with
          | some u => some u
          | none => stringBasedType code) = some t := h
      rcases hs : jsonSigType parsed with _ | t2
      · rw [hs] at h2
        exact stringBasedType_chart_or_table code t h2
      · rw [hs] at h2
        injection h2 with h2
        subst h2
        exact jsonSigType_chart_or_table parsed t2 hs

theorem getEnhancedArtifactType_ne_text (lang code : List Char) :
    getEnhancedArtifactType lang code ≠ ArtifactType.text := by
  unfold getEnhancedArtifactType
  by_cases q1 : (tableLanguages.contains (lower lang)) = true
  · rw [if_pos q1]
    decide
  · rw [if_neg q1]
    by_cases q2 : (chartLanguages.contains (lower lang)) = true
    · rw [if_pos q2]
      decide
    · rw [if_neg q2]
      by_cases q3 : (diagramLanguages.contains (lower lang)) = true
      · rw [if_pos q3]
        decide
      · rw [if_neg q3]
        by_cases q4 : (webLanguages.contains (lower lang)) = true
        · rw [if_pos q4]
          decide
        · rw [if_neg q4]
          by_cases q5 : (dataLanguages.contains (lower lang)) = true
          · rw [if_pos q5]
            decide
          · rw [if_neg q5]
            by_cases q6 : (codeLanguages.contains (lower lang)) = true
            · rw [if_pos q6]
              decide
            · rw [if_neg q6]
              by_cases q7 : (lower lang == ("json").toList) = true
              · rw [if_pos q7]
                rcases hd : detectContentType code with _ | t
                · decide
                · cases t <;> decide
              · rw [if_neg q7]
                rcases hd : detectContentType code with _ | t
                · decide
                · rcases detectContentType_chart_or_table code t hd with h | h <;>
                    subst h <;> decide

theorem buildBlockArtifact_fields (mid : Option (List Char)) (rand : Nat → List Char)
    (tag code : List Char) (i : Nat) (a : ArtifactContent)
    (h : buildBlockArtifact mid rand tag code i = some a) :
    a.content = code ∧ code ≠ [] ∧ a.type = getEnhancedArtifactType
      (lower (if tag.isEmpty then ("unknown").toList else tag)) code := by
  unfold buildBlockArtifact at h
  by_cases h1 : lower (if tag.isEmpty then ("unknown").toList else tag)
      = ("text").toList
  · rw [if_pos h1] at h
    exact absurd h (by simp)
  · rw [if_neg h1] at h
    by_cases h2 : code.isEmpty = true
    · rw [if_pos h2] at h
      exact absurd h (by simp)
    · rw [if_neg h2] at h
      have ha := Option.some_inj.mp h
      refine ⟨by rw [← ha], ?_, by rw [← ha]⟩
      intro hnil
      rw [hnil] at h2
      simp at h2

theorem mem_if_singleton {α : Type} (c : Prop) [Decidable c] (x a : α)
    (h : a ∈ (if c then [x] else [])) : a = x := by
  by_cases hc : c
  · rw [if_pos hc] at h
    exact List.mem_singleton.mp h
  · rw [if_neg hc] at h
    simp at h

theorem mem_detectContentPatterns (content : List Char) (mid : Option (List Char))
    (rand : Nat → List Char) (k : Nat) (existing : List ArtifactContent)
    (a : ArtifactContent) (h : a ∈ detectContentPatterns content mid rand k existing) :
    a = chartIntentArtifact mid rand k ∨ a = tableIntentArtifact mid rand k := by
  unfold detectContentPatterns at h
  simp only [List.mem_append] at h
  rcases h with h | h
  · exact Or.inl (mem_if_singleton _ _ _ h)
  · exact Or.inr (mem_if_singleton _ _ _ h)

/-- C10: every artifact the detector returns has non-empty content and a
type other than `text` — `text`-tagged and empty-bodied blocks are skipped
and the two intent placeholders carry fixed non-empty template content. -/
theorem detectArtifacts_invariant (content : List Char) (mid : Option (List Char))
    (rand : Nat → List Char) :
    ∀ a ∈ detectArtifacts content mid rand,
      a.content ≠ [] ∧ a.type ≠ ArtifactType.text := by
  intro a ha
  unfold detectArtifacts at ha
  rw [List.mem_append] at ha
  rcases ha with hb | hp
  · have hb' : a ∈ (fencedBlocks content).enum.filterMap (fun p =>
        buildBlockArtifact mid rand p.2.1 p.2.2 (p.1 + 1)) := hb
    rw [List.mem_filterMap] at hb'
    obtain ⟨p, _, hbuild⟩ := hb'
    obtain ⟨hc, hne, ht⟩ := buildBlockArtifact_fields mid rand p.2.1 p.2.2 (p.1 + 1) a hbuild
    refine ⟨by rw [hc]; exact hne, ?_⟩
    rw [ht]
    exact getEnhancedArtifactType_ne_text _ _
  · rcases mem_detectContentPatterns content mid rand
        (blockArtifacts content mid rand).2 (blockArtifacts content mid rand).1 a hp
      with rfl | rfl
    · refine ⟨?_, ?_⟩
      · intro hnil
        have h0 : chartTemplate = [] := hnil
        exact absurd h0 (by decide)
      · intro hty
        have h0 : ArtifactType.chart = ArtifactType.text := hty
        exact absurd h0 (by decide)
    · refine ⟨?_, ?_⟩
      · intro hnil
        have h0 : tableTemplate = [] := hnil
        exact absurd h0 (by decide)
      · intro hty
        have h0 : ArtifactType.table = ArtifactType.text := hty
        exact absurd h0 (by decide)

/-- The single artifact extracted from `tableScenario`. -/
def tableBlockArtifact : ArtifactContent :=
  { id := ("m1-table-table-1").toList
    type := ArtifactType.table
    language := ("table").toList
    title := ("Data Table 1").toList
    content := ("\x7b\"columns\":[\"a\"],\"rows\":[]\x7d").toList
    filename := ("table_1.table.json").toList
    messageId := some (("m1").toList)
    blockIndex := 1
    tabs := [] }

/-- Witness for C10 at the table-scenario artifact. -/
theorem detectArtifacts_invariant_witness :
    tableBlockArtifact.content ≠ [] ∧ tableBlockArtifact.type ≠ ArtifactType.text :=
  detectArtifacts_invariant tableScenario (some (("m1").toList)) (fun _ => [])
    tableBlockArtifact (by decide)

end AgentChat
